import Mathlib

/-!
Verification development for the airport stand-allocation demo
(`adjacency-demo.py`).  The Python program builds a CP-SAT model that
assigns aircraft turnarounds ("turns") to parking stands subject to a
feasibility matrix, per-stand no-overlap of occupancy intervals, an
exactly-one-stand-per-turn constraint, and adjacency rules enforced via
derived "shadow" intervals.

This file shallowly embeds the model-building code: pure Python functions
become Lean functions, the CP-SAT model becomes explicit constraint data
(lists of constraint groups), and solver semantics are expressed as
satisfaction predicates over boolean assignments to the presence
variables.  Code that can raise (the `turn_times[t_id]` dictionary lookup
in `apply_adjacency_rules`) is embedded in `Except`.
-/

/-- Embeds the `TimeAnchor` enum of the source. -/
inductive TimeAnchor : Type
  | ARRIVAL : TimeAnchor
  | DEPARTURE : TimeAnchor
  deriving DecidableEq, Repr

/-- Embeds the `TimeWindowDefinition` pydantic model: how to derive a
shadow interval from a turn's occupancy. -/
structure TimeWindowDefinition : Type where
  start_anchor : TimeAnchor
  start_offset_minutes : Int := 0
  end_anchor : TimeAnchor
  end_offset_minutes : Int := 0
  deriving DecidableEq, Repr

/-- Embeds the `Turn` pydantic model. -/
structure Turn : Type where
  turn_id : String
  turn_seq : Nat
  flight_id : String
  arrival_time : Int
  departure_time : Int
  deriving DecidableEq, Repr

/-- Embeds the `Stand` pydantic model. -/
structure Stand : Type where
  stand_id : String
  deriving DecidableEq, Repr

/-- Embeds the `AdjacencyRule` pydantic model. -/
structure AdjacencyRule : Type where
  rule_id : String
  name : String
  description : Option String := none
  stand_a : String
  stand_b : String
  time_constraint_a : TimeWindowDefinition
  time_constraint_b : TimeWindowDefinition
  deriving DecidableEq, Repr

/-- Embeds `_compute_shadow_times`: compute shadow interval start and end
times based on a `TimeWindowDefinition`. -/
def _compute_shadow_times (arr dep : Int) (time_constraint : TimeWindowDefinition) :
    Int × Int :=
  let base_start := if time_constraint.start_anchor = TimeAnchor.ARRIVAL then arr else dep
  let s_start := base_start + time_constraint.start_offset_minutes
  let base_end := if time_constraint.end_anchor = TimeAnchor.ARRIVAL then arr else dep
  let s_end := base_end + time_constraint.end_offset_minutes
  (s_start, s_end)

/-- One entry of the `assignments` dictionary of the main model: the
variables created for one feasible (turn, stand) pair.  `t_idx`/`s_idx`
are the loop indices (they identify the freshly created presence boolean
`is_present`), and `start`/`size`/`stop` are the arguments passed to
`NewOptionalIntervalVar` (the source's keyword `end` is spelled `stop`
here because `end` is a Lean keyword). -/
structure Candidate : Type where
  t_idx : Nat
  s_idx : Nat
  turn_id : String
  stand_id : String
  start : Int
  size : Int
  stop : Int
  deriving DecidableEq, Repr

/-- The presence boolean of a candidate, identified by the loop indices at
which it was created (each loop iteration calls `NewBoolVar`, so the pair
of indices names the variable uniquely). -/
def presKey (c : Candidate) : Nat × Nat :=
  (c.t_idx, c.s_idx)

/-- The variables created in one iteration of the candidate-building loop
body: presence boolean plus optional interval with
`start = arrival_time`, `size = departure_time - arrival_time`,
`end = departure_time`. -/
def mkCandidate (t_idx s_idx : Nat) (turn : Turn) (stand : Stand) : Candidate :=
  { t_idx := t_idx
    s_idx := s_idx
    turn_id := turn.turn_id
    stand_id := stand.stand_id
    start := turn.arrival_time
    size := turn.departure_time - turn.arrival_time
    stop := turn.departure_time }

/-- Inner loop of the candidate builder (`for s_idx, stand in
enumerate(stands)`), with the running stand index made explicit: a pair is
skipped exactly when `feasibility[t_idx][s_idx]` is false. -/
def buildRow (t_idx : Nat) (turn : Turn) (s_idx : Nat) (stands : List Stand)
    (feasibility : Nat → Nat → Bool) : List Candidate :=
  match stands with
  | [] => []
  | stand :: rest =>
    if feasibility t_idx s_idx then
      mkCandidate t_idx s_idx turn stand :: buildRow t_idx turn (s_idx + 1) rest feasibility
    else
      buildRow t_idx turn (s_idx + 1) rest feasibility

/-- Outer loop of the candidate builder (`for t_idx, turn in
enumerate(turns)`), with the running turn index made explicit. -/
def buildFrom (t_idx : Nat) (turns : List Turn) (stands : List Stand)
    (feasibility : Nat → Nat → Bool) : List Candidate :=
  match turns with
  | [] => []
  | turn :: rest =>
    buildRow t_idx turn 0 stands feasibility ++ buildFrom (t_idx + 1) rest stands feasibility

/-- The full candidate-building loop of the main model: the `assignments`
dictionary in creation order.  The feasibility matrix is embedded as a
function of the two indices. -/
def buildCandidates (turns : List Turn) (stands : List Stand)
    (feasibility : Nat → Nat → Bool) : List Candidate :=
  buildFrom 0 turns stands feasibility

/-- The `presence_vars_per_flight[f_id]` list: all candidates created for
turn id `f_id`, in creation order. -/
def presence_vars_per_flight (cands : List Candidate) (f_id : String) : List Candidate :=
  cands.filter (fun c => c.turn_id == f_id)

/-- The `intervals_per_stand[s]` list: all candidates created on stand id
`s`, in creation order. -/
def intervals_per_stand (cands : List Candidate) (s : String) : List Candidate :=
  cands.filter (fun c => c.stand_id == s)

/-- The keys of the `presence_vars_per_flight` defaultdict, in insertion
order: turn ids of created candidates, first occurrence first.  Only these
keys receive an `AddExactlyOne` constraint. -/
def flightKeys (cands : List Candidate) : List String :=
  (cands.map Candidate.turn_id).dedup

/-- The keys of the `intervals_per_stand` defaultdict, in insertion order.
Only these keys receive an `AddNoOverlap` constraint. -/
def standKeys (cands : List Candidate) : List String :=
  (cands.map Candidate.stand_id).dedup

/-- The `AddExactlyOne` constraints emitted by the main model, one per
populated key of `presence_vars_per_flight`. -/
def mainExactlyOneGroups (cands : List Candidate) : List (List Candidate) :=
  (flightKeys cands).map (presence_vars_per_flight cands)

/-- The `AddNoOverlap` constraints emitted by the main model, one per
populated key of `intervals_per_stand`. -/
def mainNoOverlapGroups (cands : List Candidate) : List (List Candidate) :=
  (standKeys cands).map (intervals_per_stand cands)

/-- CP-SAT semantics of one `AddExactlyOne` constraint under an assignment
`σ` of the presence booleans: exactly one boolean of the group is true. -/
def exactlyOneOK (σ : Nat × Nat → Bool) (group : List Candidate) : Prop :=
  group.countP (fun c => σ (presKey c)) = 1

/-- CP-SAT disjointness of two fixed optional intervals, as enforced by
`AddNoOverlap` when both are present: they must not share an instant.
Zero-length intervals are ignored by the no-overlap constraint. -/
def candDisjoint (a b : Candidate) : Prop :=
  a.size = 0 ∨ b.size = 0 ∨ a.stop ≤ b.start ∨ b.stop ≤ a.start

/-- CP-SAT semantics of one `AddNoOverlap` constraint over occupancy
intervals under an assignment `σ`: every pair of present intervals of the
group is disjoint. -/
def noOverlapOK (σ : Nat × Nat → Bool) (group : List Candidate) : Prop :=
  group.Pairwise (fun a b => σ (presKey a) = true → σ (presKey b) = true → candDisjoint a b)

/-- An assignment of the presence booleans satisfies the main model iff it
satisfies every emitted `AddExactlyOne` and `AddNoOverlap` constraint. -/
def satisfiesMainModel (σ : Nat × Nat → Bool) (cands : List Candidate) : Prop :=
  (∀ g ∈ mainExactlyOneGroups cands, exactlyOneOK σ g) ∧
  (∀ g ∈ mainNoOverlapGroups cands, noOverlapOK σ g)

/-- A shadow interval created by `apply_adjacency_rules` via
`NewOptionalIntervalVar(start=s_start, size=s_end - s_start, end=s_end,
is_present=assignment["is_present"], ...)`.  `is_present` records which
candidate's presence boolean gates the interval. -/
structure ShadowInterval : Type where
  start : Int
  size : Int
  stop : Int
  is_present : Nat × Nat
  deriving DecidableEq, Repr

/-- The shadow interval built for candidate `c` from the anchor times
`(arr, dep)` and time window `tc`, exactly as in the body of the
`apply_adjacency_rules` loop. -/
def mkShadow (tc : TimeWindowDefinition) (arr dep : Int) (c : Candidate) : ShadowInterval :=
  let p := _compute_shadow_times arr dep tc
  { start := p.1, size := p.2 - p.1, stop := p.2, is_present := presKey c }

/-- The `turn_times[t_id]` lookup of `apply_adjacency_rules`.  The
dictionary is built by comprehension over `turns`, so a repeated
`turn_id` keeps the last entry; a missing key raises (`Except.error`). -/
def lookupTurnTimes (turns : List Turn) (t_id : String) : Except String (Int × Int) :=
  match (turns.filter (fun t => t.turn_id == t_id)).getLast? with
  | some t => Except.ok (t.arrival_time, t.departure_time)
  | none => Except.error "KeyError"

/-- The `shadows` list accumulated for one rule by the inner loop of
`apply_adjacency_rules`: candidates on `stand_a` get a shadow from
`time_constraint_a`; otherwise (`elif`) candidates on `stand_b` get one
from `time_constraint_b`; other candidates are skipped. -/
def ruleShadows (turns : List Turn) (assignments : List Candidate)
    (rule : AdjacencyRule) : Except String (List ShadowInterval) :=
  match assignments with
  | [] => Except.ok []
  | c :: rest =>
    if c.stand_id = rule.stand_a then do
      let ad ← lookupTurnTimes turns c.turn_id
      let tl ← ruleShadows turns rest rule
      Except.ok (mkShadow rule.time_constraint_a ad.1 ad.2 c :: tl)
    else if c.stand_id = rule.stand_b then do
      let ad ← lookupTurnTimes turns c.turn_id
      let tl ← ruleShadows turns rest rule
      Except.ok (mkShadow rule.time_constraint_b ad.1 ad.2 c :: tl)
    else
      ruleShadows turns rest rule

/-- Embeds `apply_adjacency_rules`: the list of `AddNoOverlap` constraints
it adds to the model, one group per rule whose `shadows` list is nonempty
(`if shadows: model.AddNoOverlap(shadows)`). -/
def apply_adjacency_rules (turns : List Turn) (assignments : List Candidate)
    (adjacency_rules : List AdjacencyRule) : Except String (List (List ShadowInterval)) :=
  match adjacency_rules with
  | [] => Except.ok []
  | rule :: rest => do
    let shadows ← ruleShadows turns assignments rule
    let tl ← apply_adjacency_rules turns assignments rest
    Except.ok (if shadows.isEmpty then tl else shadows :: tl)

/-- CP-SAT disjointness of two fixed shadow intervals under `AddNoOverlap`
(zero-length intervals are ignored). -/
def shadowDisjoint (a b : ShadowInterval) : Prop :=
  a.size = 0 ∨ b.size = 0 ∨ a.stop ≤ b.start ∨ b.stop ≤ a.start

/-- CP-SAT semantics of the `AddNoOverlap` constraint over one rule's
shadow intervals under an assignment `σ` of the presence booleans. -/
def shadowNoOverlapOK (σ : Nat × Nat → Bool) (l : List ShadowInterval) : Prop :=
  l.Pairwise (fun a b => σ a.is_present = true → σ b.is_present = true → shadowDisjoint a b)

/-- Two candidates are simultaneously raw-occupied at some instant: their
closed-open occupancy windows `[start, stop)` share a point. -/
def rawSimultaneous (c1 c2 : Candidate) : Prop :=
  ∃ x : Int, c1.start ≤ x ∧ x < c1.stop ∧ c2.start ≤ x ∧ x < c2.stop

/-- Modelled from the claim's words (for comparison with `ruleShadows`):
the shadows one candidate should contribute to a rule — one from
`time_constraint_a` if its stand equals `stand_a`, and one from
`time_constraint_b` if its stand equals `stand_b`, each gated by the
candidate's own presence boolean. -/
def specCandidateShadows (turns : List Turn) (rule : AdjacencyRule)
    (c : Candidate) : Except String (List ShadowInterval) :=
  if c.stand_id = rule.stand_a ∨ c.stand_id = rule.stand_b then do
    let ad ← lookupTurnTimes turns c.turn_id
    let la := if c.stand_id = rule.stand_a then [mkShadow rule.time_constraint_a ad.1 ad.2 c] else []
    let lb := if c.stand_id = rule.stand_b then [mkShadow rule.time_constraint_b ad.1 ad.2 c] else []
    Except.ok (la ++ lb)
  else
    Except.ok []

/-- Modelled from the claim's words: all shadows the claim predicts for a
rule, scanning the candidates in order. -/
def specRuleShadows (turns : List Turn) (assignments : List Candidate)
    (rule : AdjacencyRule) : Except String (List ShadowInterval) :=
  match assignments with
  | [] => Except.ok []
  | c :: rest => do
    let hd ← specCandidateShadows turns rule c
    let tl ← specRuleShadows turns rest rule
    Except.ok (hd ++ tl)

/-- Characterisation helper: the shadows a rule would collect if only the
`stand_a` branch existed (one shadow, from `time_constraint_a`, per
candidate whose stand equals `stand_a`). -/
def sideAOnlyShadows (turns : List Turn) (assignments : List Candidate)
    (rule : AdjacencyRule) : Except String (List ShadowInterval) :=
  match assignments with
  | [] => Except.ok []
  | c :: rest =>
    if c.stand_id = rule.stand_a then do
      let ad ← lookupTurnTimes turns c.turn_id
      let tl ← sideAOnlyShadows turns rest rule
      Except.ok (mkShadow rule.time_constraint_a ad.1 ad.2 c :: tl)
    else
      sideAOnlyShadows turns rest rule

/-- The identity time window: anchors matching raw occupancy and zero
offsets. -/
def identityWindow : TimeWindowDefinition :=
  { start_anchor := TimeAnchor.ARRIVAL
    start_offset_minutes := 0
    end_anchor := TimeAnchor.DEPARTURE
    end_offset_minutes := 0 }

/-- Decidable equality on `Except`, used to evaluate lookups in concrete
witnesses. -/
instance {e a : Type} [DecidableEq e] [DecidableEq a] : DecidableEq (Except e a) := fun x y =>
  match x, y with
  | Except.ok u, Except.ok v =>
    if h : u = v then isTrue (by rw [h])
    else isFalse (by intro hh; injection hh; exact h (by assumption))
  | Except.ok _, Except.error _ => isFalse (fun hh => Except.noConfusion hh)
  | Except.error _, Except.ok _ => isFalse (fun hh => Except.noConfusion hh)
  | Except.error w, Except.error z =>
    if h : w = z then isTrue (by rw [h])
    else isFalse (by intro hh; injection hh; exact h (by assumption))

/-- Boolean success test for `Except`. -/
def isOkE {a : Type} : Except String a → Bool
  | Except.ok _ => true
  | Except.error _ => false

/-- The test data of the source: the four turns. -/
def turns : List Turn :=
  [{ turn_id := "1", turn_seq := 0, flight_id := "FR13", arrival_time := 20, departure_time := 55 },
   { turn_id := "2", turn_seq := 0, flight_id := "FR42", arrival_time := 10, departure_time := 35 },
   { turn_id := "3", turn_seq := 0, flight_id := "FR66", arrival_time := 35, departure_time := 60 },
   { turn_id := "4", turn_seq := 0, flight_id := "FR99", arrival_time := 25, departure_time := 50 }]

/-- The test data of the source: the five stands. -/
def stands : List Stand :=
  [{ stand_id := "1L" }, { stand_id := "1C" }, { stand_id := "2L" },
   { stand_id := "2C" }, { stand_id := "2R" }]

/-- The test data of the source: the feasibility matrix (`np.ones` with
five entries set to `False`). -/
def feasibility : Nat → Nat → Bool
  | 0, 0 => false
  | 1, 0 => false
  | 3, 0 => false
  | 3, 2 => false
  | 3, 4 => false
  | _, _ => true

/-- The example adjacency rules of the source (both with identity time
windows). -/
def adjacency_rules : List AdjacencyRule :=
  [{ rule_id := "1", name := "1L_1C_adjacency", stand_a := "1L", stand_b := "1C",
     time_constraint_a := identityWindow, time_constraint_b := identityWindow },
   { rule_id := "2", name := "2L_2C_adjacency", stand_a := "2L", stand_b := "2C",
     time_constraint_a := identityWindow, time_constraint_b := identityWindow }]

/-- A one-turn, one-stand instance whose feasibility row is entirely
false: input for the structural-infeasibility claim. -/
def c3turns : List Turn :=
  [{ turn_id := "1", turn_seq := 0, flight_id := "FR13", arrival_time := 20, departure_time := 55 }]

/-- The single stand of the structural-infeasibility instance. -/
def c3stands : List Stand :=
  [{ stand_id := "1L" }]

/-- Two back-to-back turns (departure of one equals arrival of the other)
used by the per-stand no-overlap witness. -/
def c6turns : List Turn :=
  [{ turn_id := "A", turn_seq := 0, flight_id := "FA", arrival_time := 10, departure_time := 20 },
   { turn_id := "B", turn_seq := 0, flight_id := "FB", arrival_time := 20, departure_time := 30 }]

/-- The single stand of the back-to-back witness instance. -/
def c6stands : List Stand :=
  [{ stand_id := "S" }]

/-- A rule whose two sides name the same stand but carry different time
windows: input for the same-stand counterexample. -/
def c2rule : AdjacencyRule :=
  { rule_id := "X", name := "same_stand", stand_a := "1L", stand_b := "1L",
    time_constraint_a := identityWindow,
    time_constraint_b :=
      { start_anchor := TimeAnchor.ARRIVAL, start_offset_minutes := 0,
        end_anchor := TimeAnchor.DEPARTURE, end_offset_minutes := 5 } }

/-- A single turn used by several concrete counterexamples. -/
def c4turn : Turn :=
  { turn_id := "T", turn_seq := 0, flight_id := "F", arrival_time := 10, departure_time := 20 }

/-- A rule whose side-a window resolves to `start > end` for `c4turn`
(start anchored at departure, end at arrival). -/
def c4rule : AdjacencyRule :=
  { rule_id := "B", name := "bad_window", stand_a := "1L", stand_b := "1C",
    time_constraint_a :=
      { start_anchor := TimeAnchor.DEPARTURE, start_offset_minutes := 0,
        end_anchor := TimeAnchor.ARRIVAL, end_offset_minutes := 0 },
    time_constraint_b := identityWindow }

/-- A rule whose two sides match no candidate of the test data. -/
def c8rule : AdjacencyRule :=
  { rule_id := "I", name := "inactive", stand_a := "9X", stand_b := "9Y",
    time_constraint_a := identityWindow, time_constraint_b := identityWindow }

/-- A rule referencing stand identifiers that are not in the stand list. -/
def c9rule : AdjacencyRule :=
  { rule_id := "U", name := "unknown_stands", stand_a := "ZZ", stand_b := "QQ",
    time_constraint_a := identityWindow, time_constraint_b := identityWindow }

/-- A same-stand rule whose side-b window differs from side a: input for
the claim that side b is never used when the two sides coincide. -/
def c10rule : AdjacencyRule :=
  { rule_id := "S", name := "same_stand_pair", stand_a := "2L", stand_b := "2L",
    time_constraint_a := identityWindow,
    time_constraint_b :=
      { start_anchor := TimeAnchor.DEPARTURE, start_offset_minutes := -15,
        end_anchor := TimeAnchor.DEPARTURE, end_offset_minutes := 15 } }

/-- Claim C1: for every arrival `arr`, departure `dep` and time-window
definition `d`, `_compute_shadow_times` returns exactly the pair
`((arr if start_anchor = ARRIVAL else dep) + start_offset_minutes,
  (arr if end_anchor = ARRIVAL else dep) + end_offset_minutes)`.
Being a Lean function, it is pure and deterministic by construction. -/
theorem C1_compute_shadow_times_contract (arr dep : Int) (d : TimeWindowDefinition) :
    _compute_shadow_times arr dep d =
      ((if d.start_anchor = TimeAnchor.ARRIVAL then arr else dep) + d.start_offset_minutes,
       (if d.end_anchor = TimeAnchor.ARRIVAL then arr else dep) + d.end_offset_minutes) :=
  rfl

/-- Bind on a successful `Except` computation. -/
theorem except_bind_ok {a b : Type} (x : a) (f : a → Except String b) :
    (Except.ok x >>= f) = f x :=
  rfl

/-- Bind on a failed `Except` computation. -/
theorem except_bind_err {a b : Type} (w : String) (f : a → Except String b) :
    ((Except.error w : Except String a) >>= f) = Except.error w :=
  rfl

/-- An element returned by `getLast?` is a member of the list. -/
theorem getLast?_mem {a : Type} {l : List a} {x : a} (h : l.getLast? = some x) : x ∈ l := by
  rcases List.mem_getLast?_eq_getLast (x := x) (l := l) (by simp [h, Option.mem_def]) with ⟨hne, hx⟩
  rw [hx]
  exact List.getLast_mem hne

/-- A successful `turn_times` lookup returns the times of a turn of the
list bearing the looked-up id. -/
theorem lookupTurnTimes_ok_mem {turns : List Turn} {t_id : String} {a d : Int}
    (h : lookupTurnTimes turns t_id = Except.ok (a, d)) :
    ∃ t ∈ turns, t.arrival_time = a ∧ t.departure_time = d := by
  unfold lookupTurnTimes at h
  rcases hl : (turns.filter (fun t => t.turn_id == t_id)).getLast? with _ | t
  · rw [hl] at h
    exact absurd h (fun hh => Except.noConfusion hh)
  · rw [hl] at h
    injection h with h2
    have hmem : t ∈ turns := (List.mem_filter.mp (getLast?_mem hl)).1
    exact ⟨t, hmem, congrArg Prod.fst h2, congrArg Prod.snd h2⟩

/-- Membership in the inner candidate-building loop, with explicit stand
index arithmetic. -/
theorem mem_buildRow {t_idx : Nat} {turn : Turn} {s0 : Nat} {stands : List Stand}
    {feas : Nat → Nat → Bool} {c : Candidate} :
    c ∈ buildRow t_idx turn s0 stands feas ↔
      ∃ j stand, stands.get? j = some stand ∧ feas t_idx (s0 + j) = true ∧
        c = mkCandidate t_idx (s0 + j) turn stand := by
  induction stands generalizing s0 with
  | nil => simp [buildRow]
  | cons st rest ih =>
    unfold buildRow
    by_cases hf : feas t_idx s0
    · rw [if_pos hf]
      constructor
      · intro hm
        rcases List.mem_cons.mp hm with hm | hm
        · exact ⟨0, st, by simp, by simpa using hf, by simpa using hm⟩
        · rcases (@ih (s0 + 1)).mp hm with ⟨j, stand, h1, h2, h3⟩
          have harith : s0 + 1 + j = s0 + (j + 1) := by omega
          exact ⟨j + 1, stand, by simpa using h1, by rw [← harith]; exact h2,
            by rw [← harith]; exact h3⟩
      · rintro ⟨j, stand, h1, h2, h3⟩
        match j, h1 with
        | 0, h1 =>
          have : st = stand := by simpa using h1
          subst this
          exact List.mem_cons.mpr (Or.inl (by simpa using h3))
        | j' + 1, h1 =>
          have harith : s0 + (j' + 1) = s0 + 1 + j' := by omega
          refine List.mem_cons.mpr (Or.inr ((@ih (s0 + 1)).mpr ⟨j', stand, by simpa using h1, ?_, ?_⟩))
          · rw [← harith]; exact h2
          · rw [← harith]; exact h3
    · rw [if_neg hf]
      constructor
      · intro hm
        rcases (@ih (s0 + 1)).mp hm with ⟨j, stand, h1, h2, h3⟩
        have harith : s0 + 1 + j = s0 + (j + 1) := by omega
        exact ⟨j + 1, stand, by simpa using h1, by rw [← harith]; exact h2,
          by rw [← harith]; exact h3⟩
      · rintro ⟨j, stand, h1, h2, h3⟩
        match j, h1 with
        | 0, h1 =>
          rw [show s0 + 0 = s0 from rfl] at h2
          exact absurd h2 (by simpa using hf)
        | j' + 1, h1 =>
          have harith : s0 + (j' + 1) = s0 + 1 + j' := by omega
          refine (@ih (s0 + 1)).mpr ⟨j', stand, by simpa using h1, ?_, ?_⟩
          · rw [← harith]; exact h2
          · rw [← harith]; exact h3

/-- Membership in the outer candidate-building loop. -/
theorem mem_buildFrom {t0 : Nat} {turns : List Turn} {stands : List Stand}
    {feas : Nat → Nat → Bool} {c : Candidate} :
    c ∈ buildFrom t0 turns stands feas ↔
      ∃ i turn, turns.get? i = some turn ∧ c ∈ buildRow (t0 + i) turn 0 stands feas := by
  induction turns generalizing t0 with
  | nil => simp [buildFrom]
  | cons turn rest ih =>
    unfold buildFrom
    rw [List.mem_append]
    constructor
    · intro hm
      rcases hm with hm | hm
      · exact ⟨0, turn, by simp, by simpa using hm⟩
      · rcases (@ih (t0 + 1)).mp hm with ⟨i, tu, h1, h2⟩
        have harith : t0 + 1 + i = t0 + (i + 1) := by omega
        exact ⟨i + 1, tu, by simpa using h1, by rw [← harith]; exact h2⟩
    · rintro ⟨i, tu, h1, h2⟩
      match i, h1 with
      | 0, h1 =>
        have : turn = tu := by simpa using h1
        subst this
        exact Or.inl (by simpa using h2)
      | i' + 1, h1 =>
        have harith : t0 + (i' + 1) = t0 + 1 + i' := by omega
        refine Or.inr ((@ih (t0 + 1)).mpr ⟨i', tu, by simpa using h1, ?_⟩)
        rw [← harith]; exact h2

/-- Membership in the full candidate list: a candidate exists exactly for
index pairs with true feasibility, and carries the corresponding turn's
and stand's data. -/
theorem mem_buildCandidates {turns : List Turn} {stands : List Stand}
    {feas : Nat → Nat → Bool} {c : Candidate} :
    c ∈ buildCandidates turns stands feas ↔
      ∃ i j turn stand, turns.get? i = some turn ∧ stands.get? j = some stand ∧
        feas i j = true ∧ c = mkCandidate i j turn stand := by
  unfold buildCandidates
  rw [mem_buildFrom]
  constructor
  · rintro ⟨i, turn, h1, h2⟩
    rcases mem_buildRow.mp h2 with ⟨j, stand, h3, h4, h5⟩
    exact ⟨i, j, turn, stand, h1, h3, by simpa using h4, by simpa using h5⟩
  · rintro ⟨i, j, turn, stand, h1, h2, h3, h4⟩
    exact ⟨i, turn, h1, mem_buildRow.mpr ⟨j, stand, h2, by simpa using h3, by simpa using h4⟩⟩

/-- Every candidate of the inner loop carries the loop's turn index and a
stand index at least the starting one. -/
theorem buildRow_bounds {t_idx : Nat} {turn : Turn} {s0 : Nat} {stands : List Stand}
    {feas : Nat → Nat → Bool} {c : Candidate} (h : c ∈ buildRow t_idx turn s0 stands feas) :
    c.t_idx = t_idx ∧ s0 ≤ c.s_idx := by
  rcases mem_buildRow.mp h with ⟨j, stand, _, _, h5⟩
  subst h5
  exact ⟨rfl, Nat.le_add_right s0 j⟩

/-- Every candidate of the outer loop carries a turn index at least the
starting one. -/
theorem buildFrom_bounds {t0 : Nat} {turns : List Turn} {stands : List Stand}
    {feas : Nat → Nat → Bool} {c : Candidate} (h : c ∈ buildFrom t0 turns stands feas) :
    t0 ≤ c.t_idx := by
  rcases mem_buildFrom.mp h with ⟨i, turn, _, h2⟩
  rw [(buildRow_bounds h2).1]
  exact Nat.le_add_right t0 i

/-- The inner loop creates candidates with strictly increasing stand
indices. -/
theorem buildRow_pairwise (t_idx : Nat) (turn : Turn) (s0 : Nat) (stands : List Stand)
    (feas : Nat → Nat → Bool) :
    (buildRow t_idx turn s0 stands feas).Pairwise (fun a b => a.s_idx < b.s_idx) := by
  induction stands generalizing s0 with
  | nil => exact List.Pairwise.nil
  | cons st rest ih =>
    unfold buildRow
    by_cases hf : feas t_idx s0
    · rw [if_pos hf]
      refine List.Pairwise.cons ?_ (ih (s0 + 1))
      intro b hb
      have := (buildRow_bounds hb).2
      simp only [mkCandidate]
      omega
    · rw [if_neg hf]
      exact ih (s0 + 1)

/-- Distinct candidates of the build receive distinct presence booleans:
the created (turn index, stand index) keys are pairwise distinct. -/
theorem buildFrom_presKey_pairwise (t0 : Nat) (turns : List Turn) (stands : List Stand)
    (feas : Nat → Nat → Bool) :
    (buildFrom t0 turns stands feas).Pairwise (fun a b => presKey a ≠ presKey b) := by
  induction turns generalizing t0 with
  | nil => exact List.Pairwise.nil
  | cons turn rest ih =>
    unfold buildFrom
    rw [List.pairwise_append]
    refine ⟨?_, ih (t0 + 1), ?_⟩
    · refine (buildRow_pairwise t0 turn 0 stands feas).imp_of_mem ?_
      intro a b _ _ hlt hk
      have : a.s_idx = b.s_idx := congrArg Prod.snd hk
      omega
    · intro a ha b hb hk
      have h1 : a.t_idx = t0 := (buildRow_bounds ha).1
      have h2 : t0 + 1 ≤ b.t_idx := buildFrom_bounds hb
      have : a.t_idx = b.t_idx := congrArg Prod.fst hk
      omega

/-- The presence booleans of the full candidate list are pairwise
distinct (each is freshly created in its own loop iteration). -/
theorem buildCandidates_presKey_nodup (turns : List Turn) (stands : List Stand)
    (feas : Nat → Nat → Bool) :
    ((buildCandidates turns stands feas).map presKey).Nodup := by
  rw [List.Nodup, List.pairwise_map]
  exact buildFrom_presKey_pairwise 0 turns stands feas

/-- Every candidate's interval data comes from a turn of the list:
`start` is its arrival, `stop` its departure, `size` their difference. -/
theorem buildCandidates_shape {turns : List Turn} {stands : List Stand}
    {feas : Nat → Nat → Bool} {c : Candidate} (h : c ∈ buildCandidates turns stands feas) :
    ∃ turn ∈ turns, c.turn_id = turn.turn_id ∧ c.start = turn.arrival_time ∧
      c.stop = turn.departure_time ∧ c.size = turn.departure_time - turn.arrival_time := by
  rcases mem_buildCandidates.mp h with ⟨i, j, turn, stand, h1, _, _, h4⟩
  subst h4
  exact ⟨turn, List.get?_mem h1, rfl, rfl, rfl, rfl⟩

/-- Every candidate's stand identifier is one of the supplied stands'. -/
theorem buildCandidates_stand_mem {turns : List Turn} {stands : List Stand}
    {feas : Nat → Nat → Bool} {c : Candidate} (h : c ∈ buildCandidates turns stands feas) :
    c.stand_id ∈ stands.map Stand.stand_id := by
  rcases mem_buildCandidates.mp h with ⟨i, j, turn, stand, _, h2, _, h4⟩
  subst h4
  exact List.mem_map.mpr ⟨stand, List.get?_mem h2, rfl⟩

/-- A rule matching no candidate accumulates no shadows and raises no
error. -/
theorem ruleShadows_nil_of_no_match {turns : List Turn} {assignments : List Candidate}
    {rule : AdjacencyRule}
    (h : ∀ c ∈ assignments, c.stand_id ≠ rule.stand_a ∧ c.stand_id ≠ rule.stand_b) :
    ruleShadows turns assignments rule = Except.ok [] := by
  induction assignments with
  | nil => rfl
  | cons c rest ih =>
    have hc := h c (List.mem_cons_self c rest)
    unfold ruleShadows
    rw [if_neg hc.1, if_neg hc.2]
    exact ih (fun x hx => h x (List.mem_cons_of_mem c hx))

/-- A rule whose shadow list is empty contributes nothing to the model:
`apply_adjacency_rules` on it behaves as on the remaining rules alone. -/
theorem apply_adjacency_rules_cons_nil {turns : List Turn} {assignments : List Candidate}
    {rule : AdjacencyRule} {rest : List AdjacencyRule}
    (h : ruleShadows turns assignments rule = Except.ok []) :
    apply_adjacency_rules turns assignments (rule :: rest) =
      apply_adjacency_rules turns assignments rest := by
  have hstep : apply_adjacency_rules turns assignments (rule :: rest) =
      (ruleShadows turns assignments rule >>= fun shadows =>
        apply_adjacency_rules turns assignments rest >>= fun tl =>
          Except.ok (if shadows.isEmpty then tl else shadows :: tl)) := rfl
  rw [hstep, h, except_bind_ok]
  rcases ha : apply_adjacency_rules turns assignments rest with w | tl
  · rw [except_bind_err]
  · rw [except_bind_ok]
    simp

/-- Two nonempty closed-open integer intervals are disjoint iff one ends
before the other starts. -/
theorem int_closed_open_disjoint (a1 d1 a2 d2 : Int) (h1 : a1 < d1) (h2 : a2 < d2) :
    (d1 ≤ a2 ∨ d2 ≤ a1) ↔ ¬ ∃ x : Int, a1 ≤ x ∧ x < d1 ∧ a2 ≤ x ∧ x < d2 := by
  constructor
  · rintro h ⟨x, hx1, hx2, hx3, hx4⟩
    omega
  · intro h
    by_contra hc
    push_neg at hc
    exact h ⟨max a1 a2, le_max_left a1 a2, max_lt h1 hc.1, le_max_right a1 a2, max_lt hc.2 h2⟩

/-- Claim C3, evaluated at the failing input: for a turn whose feasibility
row is entirely false, the code emits no exactly-one constraint at all
(the `AddExactlyOne` loop iterates only over populated dictionary keys),
and the resulting model is satisfied by the all-false assignment — the
turn is silently skipped instead of making the model unsatisfiable as the
claim requires. -/
theorem C3_zero_candidate_turn_silently_skipped :
    mainExactlyOneGroups (buildCandidates c3turns c3stands (fun _ _ => false)) = [] ∧
    satisfiesMainModel (fun _ => false)
      (buildCandidates c3turns c3stands (fun _ _ => false)) := by
  constructor
  · rfl
  · constructor
    · intro g hg
      simp [buildCandidates, buildFrom, buildRow, mainExactlyOneGroups, flightKeys,
        c3turns, c3stands, List.dedup] at hg
    · intro g hg
      simp [buildCandidates, buildFrom, buildRow, mainNoOverlapGroups, standKeys,
        c3turns, c3stands, List.dedup] at hg

/-- Claim C5: for every (turn, stand) index pair of the input lists, a
candidate keyed by that pair exists in the built assignment list iff the
feasibility entry is true; any such candidate carries exactly the fresh
presence boolean key and the occupancy interval
(start = arrival, size = departure − arrival, end = departure); and all
presence booleans are pairwise fresh.  Feasibility pruning happens only
here: nothing else removes a pair. -/
theorem C5_candidate_iff_feasible (turns : List Turn) (stands : List Stand)
    (feas : Nat → Nat → Bool) (t_idx s_idx : Nat) (turn : Turn) (stand : Stand)
    (h1 : turns.get? t_idx = some turn) (h2 : stands.get? s_idx = some stand) :
    ((∃ c ∈ buildCandidates turns stands feas, presKey c = (t_idx, s_idx)) ↔
        feas t_idx s_idx = true) ∧
    (∀ c ∈ buildCandidates turns stands feas, presKey c = (t_idx, s_idx) →
        c = { t_idx := t_idx, s_idx := s_idx, turn_id := turn.turn_id,
              stand_id := stand.stand_id, start := turn.arrival_time,
              size := turn.departure_time - turn.arrival_time,
              stop := turn.departure_time }) ∧
    ((buildCandidates turns stands feas).map presKey).Nodup := by
  refine ⟨⟨?_, ?_⟩, ?_, buildCandidates_presKey_nodup turns stands feas⟩
  · rintro ⟨c, hc, hk⟩
    rcases mem_buildCandidates.mp hc with ⟨i, j, tu, st, _, _, g3, g4⟩
    subst g4
    have hi : i = t_idx := congrArg Prod.fst hk
    have hj : j = s_idx := congrArg Prod.snd hk
    subst hi
    subst hj
    exact g3
  · intro hf
    exact ⟨mkCandidate t_idx s_idx turn stand,
      mem_buildCandidates.mpr ⟨t_idx, s_idx, turn, stand, h1, h2, hf, rfl⟩, rfl⟩
  · intro c hc hk
    rcases mem_buildCandidates.mp hc with ⟨i, j, tu, st, g1, g2, _, g4⟩
    subst g4
    have hi : i = t_idx := congrArg Prod.fst hk
    have hj : j = s_idx := congrArg Prod.snd hk
    subst hi
    subst hj
    rw [h1] at g1
    rw [h2] at g2
    injection g1 with g1
    injection g2 with g2
    subst g1
    subst g2
    rfl

/-- Witness for C5 at the source's test data: pair (turn 0, stand 1). -/
theorem C5_candidate_iff_feasible_witness :
    ((∃ c ∈ buildCandidates turns stands feasibility, presKey c = (0, 1)) ↔
        feasibility 0 1 = true) ∧
    (∀ c ∈ buildCandidates turns stands feasibility, presKey c = (0, 1) →
        c = { t_idx := 0, s_idx := 1, turn_id := "1", stand_id := "1C", start := 20,
              size := 35, stop := 55 }) ∧
    ((buildCandidates turns stands feasibility).map presKey).Nodup :=
  C5_candidate_iff_feasible turns stands feasibility 0 1
    { turn_id := "1", turn_seq := 0, flight_id := "FR13",
      arrival_time := 20, departure_time := 55 }
    { stand_id := "1C" } rfl rfl

/-- Claim C6: assuming every turn occupies a nonempty window
(`arrival < departure`, the data-model invariant), an assignment of the
presence booleans satisfies all per-stand `AddNoOverlap` constraints of
the main model iff every two distinct present candidates on a common
stand have raw occupancy windows `[a1, d1)`, `[a2, d2)` with `a1 ≥ d2` or
`a2 ≥ d1` — closed-open semantics, so back-to-back turns (one's departure
equal to the other's arrival) do not conflict. -/
theorem C6_per_stand_no_overlap (turns : List Turn) (stands : List Stand)
    (feas : Nat → Nat → Bool) (σ : Nat × Nat → Bool)
    (hT : ∀ t ∈ turns, t.arrival_time < t.departure_time) :
    (∀ g ∈ mainNoOverlapGroups (buildCandidates turns stands feas), noOverlapOK σ g) ↔
      (∀ c1 ∈ buildCandidates turns stands feas, ∀ c2 ∈ buildCandidates turns stands feas,
        c1.stand_id = c2.stand_id → presKey c1 ≠ presKey c2 →
        σ (presKey c1) = true → σ (presKey c2) = true →
        c1.start ≥ c2.stop ∨ c2.start ≥ c1.stop) := by
  constructor
  · intro H c1 h1 c2 h2 hs hk hp1 hp2
    have hsk : c1.stand_id ∈ standKeys (buildCandidates turns stands feas) :=
      List.mem_dedup.mpr (List.mem_map.mpr ⟨c1, h1, rfl⟩)
    have hg : intervals_per_stand (buildCandidates turns stands feas) c1.stand_id ∈
        mainNoOverlapGroups (buildCandidates turns stands feas) :=
      List.mem_map.mpr ⟨c1.stand_id, hsk, rfl⟩
    have hno := H _ hg
    have m1 : c1 ∈ intervals_per_stand (buildCandidates turns stands feas) c1.stand_id :=
      List.mem_filter.mpr ⟨h1, by simp⟩
    have m2 : c2 ∈ intervals_per_stand (buildCandidates turns stands feas) c1.stand_id :=
      List.mem_filter.mpr ⟨h2, by simp [hs.symm]⟩
    have hsym : Symmetric (fun a b : Candidate =>
        σ (presKey a) = true → σ (presKey b) = true → candDisjoint a b) := by
      intro a b hab hb ha
      rcases hab ha hb with h | h | h | h
      · exact Or.inr (Or.inl h)
      · exact Or.inl h
      · exact Or.inr (Or.inr (Or.inr h))
      · exact Or.inr (Or.inr (Or.inl h))
    have hne : c1 ≠ c2 := fun he => hk (by rw [he])
    have hd := hno.forall hsym m1 m2 hne hp1 hp2
    rcases buildCandidates_shape h1 with ⟨t1, ht1, _, _, e1e, e1z⟩
    rcases buildCandidates_shape h2 with ⟨t2, ht2, _, _, e2e, e2z⟩
    have l1 := hT t1 ht1
    have l2 := hT t2 ht2
    rcases hd with h | h | h | h
    · exfalso
      omega
    · exfalso
      omega
    · exact Or.inr h
    · exact Or.inl h
  · intro H g hg
    rcases List.mem_map.mp hg with ⟨s, _, rfl⟩
    have hkeys : (buildCandidates turns stands feas).Pairwise
        (fun a b => presKey a ≠ presKey b) := buildFrom_presKey_pairwise 0 turns stands feas
    have hpw : (List.filter (fun c => c.stand_id == s) (buildCandidates turns stands feas)).Pairwise
        (fun a b => presKey a ≠ presKey b) :=
      List.Pairwise.sublist (List.filter_sublist _) hkeys
    simp only [noOverlapOK, intervals_per_stand]
    refine hpw.imp_of_mem ?_
    intro a b ha hb hk hpa hpb
    have ha2 : a ∈ buildCandidates turns stands feas := (List.mem_filter.mp ha).1
    have hb2 : b ∈ buildCandidates turns stands feas := (List.mem_filter.mp hb).1
    have hsa : a.stand_id = s := by simpa using (List.mem_filter.mp ha).2
    have hsb : b.stand_id = s := by simpa using (List.mem_filter.mp hb).2
    rcases H a ha2 b hb2 (hsa.trans hsb.symm) hk hpa hpb with h | h
    · exact Or.inr (Or.inr (Or.inr h))
    · exact Or.inr (Or.inr (Or.inl h))

/-- Witness for C6 at the back-to-back instance: one stand, two touching
occupancies, both intervals present. -/
theorem C6_per_stand_no_overlap_witness :
    (∀ g ∈ mainNoOverlapGroups (buildCandidates c6turns c6stands (fun _ _ => true)),
        noOverlapOK (fun _ => true) g) ↔
      (∀ c1 ∈ buildCandidates c6turns c6stands (fun _ _ => true),
        ∀ c2 ∈ buildCandidates c6turns c6stands (fun _ _ => true),
        c1.stand_id = c2.stand_id → presKey c1 ≠ presKey c2 →
        (fun _ => true) (presKey c1) = true → (fun _ => true) (presKey c2) = true →
        c1.start ≥ c2.stop ∨ c2.start ≥ c1.stop) :=
  C6_per_stand_no_overlap c6turns c6stands (fun _ _ => true) (fun _ => true) (by decide)

/-- Claim C2 counterexample: a rule whose two sides name the same stand
(`stand_a = stand_b = "1L"`) with different time windows.  The claim
demands a shadow interval derived from `time_constraint_b` for every
candidate whose stand equals `stand_b`; the code's `elif` produces only
the `time_constraint_a` shadow, so the rule's entire shadow list lacks
the side-b interval. -/
theorem C2_counterexample :
    ruleShadows [c4turn] [mkCandidate 0 0 c4turn { stand_id := "1L" }] c2rule =
      Except.ok [{ start := 10, size := 10, stop := 20, is_present := (0, 0) }] ∧
    specRuleShadows [c4turn] [mkCandidate 0 0 c4turn { stand_id := "1L" }] c2rule =
      Except.ok [{ start := 10, size := 10, stop := 20, is_present := (0, 0) },
                 { start := 10, size := 15, stop := 25, is_present := (0, 0) }] ∧
    ({ start := 10, size := 15, stop := 25, is_present := (0, 0) } : ShadowInterval) ≠
      { start := 10, size := 10, stop := 20, is_present := (0, 0) } := by
  refine ⟨?_, ?_, ?_⟩ <;> decide

/-- Claim C2 as amended: for every rule whose two stands are distinct, the
assembler produces exactly the shadows the claim describes — one from
`time_constraint_a` per candidate on `stand_a`, one from
`time_constraint_b` per candidate on `stand_b`, each gated by its parent
candidate's presence boolean — and all of a rule's shadows go into a
single no-overlap constraint.  (When `stand_a = stand_b` the `elif` makes
side b unreachable; see the counterexample and claim C10.) -/
theorem C2_adjacency_assembler_distinct_stands (turns : List Turn)
    (assignments : List Candidate) (rule : AdjacencyRule)
    (hab : rule.stand_a ≠ rule.stand_b) :
    ruleShadows turns assignments rule = specRuleShadows turns assignments rule ∧
    (∀ rules shadows tl,
      ruleShadows turns assignments rule = Except.ok shadows →
      apply_adjacency_rules turns assignments rules = Except.ok tl →
      apply_adjacency_rules turns assignments (rule :: rules) =
        Except.ok (if shadows.isEmpty then tl else shadows :: tl)) := by
  constructor
  · induction assignments with
    | nil => rfl
    | cons c rest ih =>
      by_cases hA : c.stand_id = rule.stand_a
      · have hB : ¬ c.stand_id = rule.stand_b := by rw [hA]; exact hab
        simp only [ruleShadows, specRuleShadows, specCandidateShadows, if_pos hA,
          if_pos (Or.inl hA : c.stand_id = rule.stand_a ∨ c.stand_id = rule.stand_b),
          if_neg hB]
        rcases hl : lookupTurnTimes turns c.turn_id with w | ad
        · simp only [except_bind_err]
        · simp only [except_bind_ok, ih]
          rcases hr : specRuleShadows turns rest rule with w | tl
          · simp only [except_bind_err]
          · simp only [except_bind_ok]
            simp
      · by_cases hB : c.stand_id = rule.stand_b
        · simp only [ruleShadows, specRuleShadows, specCandidateShadows, if_neg hA,
            if_pos hB,
            if_pos (Or.inr hB : c.stand_id = rule.stand_a ∨ c.stand_id = rule.stand_b)]
          rcases hl : lookupTurnTimes turns c.turn_id with w | ad
          · simp only [except_bind_err]
          · simp only [except_bind_ok, ih]
            rcases hr : specRuleShadows turns rest rule with w | tl
            · simp only [except_bind_err]
            · simp only [except_bind_ok]
              simp
        · simp only [ruleShadows, specRuleShadows, specCandidateShadows, if_neg hA,
            if_neg hB, if_neg (not_or.mpr ⟨hA, hB⟩), except_bind_ok, ih]
          rcases hr : specRuleShadows turns rest rule with w | tl
          · simp only [except_bind_err]
          · simp only [except_bind_ok]
            simp
  · intro rules shadows tl hsh htl
    have hstep : apply_adjacency_rules turns assignments (rule :: rules) =
        (ruleShadows turns assignments rule >>= fun sh =>
          apply_adjacency_rules turns assignments rules >>= fun t2 =>
            Except.ok (if sh.isEmpty then t2 else sh :: t2)) := rfl
    rw [hstep, hsh, except_bind_ok, htl, except_bind_ok]

/-- Witness for C2 at the source's first adjacency rule (`1L` vs `1C`)
and the source's candidate list. -/
theorem C2_adjacency_assembler_distinct_stands_witness :
    ruleShadows turns (buildCandidates turns stands feasibility)
        { rule_id := "1", name := "1L_1C_adjacency", stand_a := "1L", stand_b := "1C",
          time_constraint_a := identityWindow, time_constraint_b := identityWindow } =
      specRuleShadows turns (buildCandidates turns stands feasibility)
        { rule_id := "1", name := "1L_1C_adjacency", stand_a := "1L", stand_b := "1C",
          time_constraint_a := identityWindow, time_constraint_b := identityWindow } :=
  (C2_adjacency_assembler_distinct_stands turns (buildCandidates turns stands feasibility)
    { rule_id := "1", name := "1L_1C_adjacency", stand_a := "1L", stand_b := "1C",
      time_constraint_a := identityWindow, time_constraint_b := identityWindow }
    (by decide)).1

/-- Shadow accumulation for a rule succeeds whenever every candidate's
turn id resolves in `turn_times`; no time-window condition is checked. -/
theorem ruleShadows_isOk {turns : List Turn} {assignments : List Candidate}
    {rule : AdjacencyRule}
    (h : ∀ c ∈ assignments, isOkE (lookupTurnTimes turns c.turn_id) = true) :
    ∃ l, ruleShadows turns assignments rule = Except.ok l := by
  induction assignments with
  | nil => exact ⟨[], rfl⟩
  | cons c rest ih =>
    have hc := h c (List.mem_cons_self c rest)
    rcases ih (fun x hx => h x (List.mem_cons_of_mem c hx)) with ⟨l, hl⟩
    rcases hlk : lookupTurnTimes turns c.turn_id with w | ad
    · rw [hlk] at hc
      exact absurd hc (by simp [isOkE])
    · by_cases hA : c.stand_id = rule.stand_a
      · refine ⟨mkShadow rule.time_constraint_a ad.1 ad.2 c :: l, ?_⟩
        simp only [ruleShadows, if_pos hA, hlk, except_bind_ok, hl]
      · by_cases hB : c.stand_id = rule.stand_b
        · refine ⟨mkShadow rule.time_constraint_b ad.1 ad.2 c :: l, ?_⟩
          simp only [ruleShadows, if_neg hA, if_pos hB, hlk, except_bind_ok, hl]
        · refine ⟨l, ?_⟩
          simp only [ruleShadows, if_neg hA, if_neg hB, hl]

/-- Claim C4 counterexample: a time-window definition that resolves to
`start > end` for the supplied turn (start anchored at departure = 20,
end at arrival = 10) is silently accepted — model construction completes
normally and emits the inverted shadow interval (negative size); no
configuration error aborts before the solve. -/
theorem C4_counterexample :
    apply_adjacency_rules [c4turn] [mkCandidate 0 0 c4turn { stand_id := "1L" }] [c4rule] =
      Except.ok [[{ start := 20, size := -10, stop := 10, is_present := (0, 0) }]] := by
  decide

/-- Claim C4 as amended: model construction performs no `start > end`
validation at all.  Whenever every candidate's turn id resolves,
`apply_adjacency_rules` succeeds for every rule list, whatever the
time-window definitions resolve to; a window with `start > end` is never
rejected during construction. -/
theorem C4_no_start_end_validation (turns : List Turn) (assignments : List Candidate)
    (rules : List AdjacencyRule)
    (h : ∀ c ∈ assignments, isOkE (lookupTurnTimes turns c.turn_id) = true) :
    isOkE (apply_adjacency_rules turns assignments rules) = true := by
  induction rules with
  | nil => rfl
  | cons rule rest ih =>
    rcases @ruleShadows_isOk turns assignments rule h with ⟨l, hl⟩
    rcases ha : apply_adjacency_rules turns assignments rest with w | tl
    · rw [ha] at ih
      exact absurd ih (by simp [isOkE])
    · have hstep : apply_adjacency_rules turns assignments (rule :: rest) =
          (ruleShadows turns assignments rule >>= fun sh =>
            apply_adjacency_rules turns assignments rest >>= fun t2 =>
              Except.ok (if sh.isEmpty then t2 else sh :: t2)) := rfl
      rw [hstep, hl, except_bind_ok, ha, except_bind_ok]
      rfl

/-- Witness for C4 at the source's full test data. -/
theorem C4_no_start_end_validation_witness :
    isOkE (apply_adjacency_rules turns (buildCandidates turns stands feasibility)
      adjacency_rules) = true :=
  C4_no_start_end_validation turns (buildCandidates turns stands feasibility)
    adjacency_rules (by decide)

/-- With identity time windows on both sides, a rule's shadows are exactly
the raw occupancy intervals of the candidates on its two stands. -/
theorem ruleShadows_identity_eq (turns : List Turn) (assignments : List Candidate)
    (rule : AdjacencyRule)
    (ha : rule.time_constraint_a = identityWindow)
    (hb : rule.time_constraint_b = identityWindow)
    (hlk : ∀ c ∈ assignments, lookupTurnTimes turns c.turn_id = Except.ok (c.start, c.stop)) :
    ruleShadows turns assignments rule =
      Except.ok ((assignments.filter
          (fun c => c.stand_id == rule.stand_a || c.stand_id == rule.stand_b)).map
        (fun c => { start := c.start, size := c.stop - c.start, stop := c.stop,
                    is_present := presKey c })) := by
  revert hlk
  induction assignments with
  | nil => intro hlk; rfl
  | cons c rest ih =>
    intro hlk
    have hc := hlk c (List.mem_cons_self c rest)
    have ihr := ih (fun x hx => hlk x (List.mem_cons_of_mem c hx))
    by_cases hA : c.stand_id = rule.stand_a
    · have hfilter : (c.stand_id == rule.stand_a || c.stand_id == rule.stand_b) = true := by
        simp [hA]
      simp only [ruleShadows, if_pos hA, hc, except_bind_ok, ihr, List.filter_cons,
        hfilter, if_true, List.map_cons]
      rw [ha]
      simp [mkShadow, _compute_shadow_times, identityWindow]
    · by_cases hB : c.stand_id = rule.stand_b
      · have hfilter : (c.stand_id == rule.stand_a || c.stand_id == rule.stand_b) = true := by
          simp [hB]
        simp only [ruleShadows, if_neg hA, if_pos hB, hc, except_bind_ok, ihr,
          List.filter_cons, hfilter, if_true, List.map_cons]
        rw [hb]
        simp [mkShadow, _compute_shadow_times, identityWindow]
      · have hfilter : (c.stand_id == rule.stand_a || c.stand_id == rule.stand_b) = false := by
          simp [hA, hB]
        simp only [ruleShadows, if_neg hA, if_neg hB, ihr, List.filter_cons, hfilter,
          Bool.false_eq_true, if_false]

/-- Claim C7: for a rule whose two time windows are the identity
(zero offsets, arrival/departure anchors), every candidate's shadow
interval equals its raw occupancy `(start, stop)`, and (given the turn
invariant `arrival < departure`) the rule's no-overlap constraint holds
iff no two distinct present candidates on the two named stands are ever
simultaneously raw-occupied. -/
theorem C7_identity_rule_equals_raw_occupancy (turns : List Turn)
    (assignments : List Candidate) (rule : AdjacencyRule) (σ : Nat × Nat → Bool)
    (ha : rule.time_constraint_a = identityWindow)
    (hb : rule.time_constraint_b = identityWindow)
    (hlk : ∀ c ∈ assignments, lookupTurnTimes turns c.turn_id = Except.ok (c.start, c.stop))
    (hT : ∀ t ∈ turns, t.arrival_time < t.departure_time) :
    ruleShadows turns assignments rule =
      Except.ok ((assignments.filter
          (fun c => c.stand_id == rule.stand_a || c.stand_id == rule.stand_b)).map
        (fun c => { start := c.start, size := c.stop - c.start, stop := c.stop,
                    is_present := presKey c })) ∧
    (∀ shadows, ruleShadows turns assignments rule = Except.ok shadows →
      (shadowNoOverlapOK σ shadows ↔
        (assignments.filter
            (fun c => c.stand_id == rule.stand_a || c.stand_id == rule.stand_b)).Pairwise
          (fun c1 c2 => σ (presKey c1) = true → σ (presKey c2) = true →
            ¬ rawSimultaneous c1 c2))) := by
  have heq := ruleShadows_identity_eq turns assignments rule ha hb hlk
  have hlt : ∀ c ∈ assignments, c.start < c.stop := by
    intro c hc
    rcases lookupTurnTimes_ok_mem (hlk c hc) with ⟨t, ht, e1, e2⟩
    have := hT t ht
    omega
  refine ⟨heq, ?_⟩
  intro shadows hsh
  rw [heq] at hsh
  injection hsh with hsh
  subst hsh
  simp only [shadowNoOverlapOK]
  rw [List.pairwise_map]
  constructor
  · intro hp
    refine hp.imp_of_mem ?_
    intro c1 c2 h1 h2 himp hs1 hs2
    have l1 : c1.start < c1.stop := hlt c1 (List.mem_filter.mp h1).1
    have l2 : c2.start < c2.stop := hlt c2 (List.mem_filter.mp h2).1
    have hd := himp hs1 hs2
    simp only [shadowDisjoint] at hd
    have hiff := int_closed_open_disjoint c1.start c1.stop c2.start c2.stop l1 l2
    refine hiff.mp ?_
    rcases hd with h | h | h | h
    · exfalso
      omega
    · exfalso
      omega
    · exact Or.inl h
    · exact Or.inr h
  · intro hp
    refine hp.imp_of_mem ?_
    intro c1 c2 h1 h2 himp hs1 hs2
    have l1 : c1.start < c1.stop := hlt c1 (List.mem_filter.mp h1).1
    have l2 : c2.start < c2.stop := hlt c2 (List.mem_filter.mp h2).1
    have hnd := himp hs1 hs2
    have hiff := int_closed_open_disjoint c1.start c1.stop c2.start c2.stop l1 l2
    simp only [shadowDisjoint]
    rcases hiff.mpr hnd with h | h
    · exact Or.inr (Or.inr (Or.inl h))
    · exact Or.inr (Or.inr (Or.inr h))

/-- Claim C8: a rule matched by no candidate on either side produces no
shadow, adds no constraint to the model (`if shadows:` fails), raises no
error, and leaves the output of `apply_adjacency_rules` exactly as if the
rule were absent — it can never affect the solver verdict. -/
theorem C8_inactive_rule_adds_nothing (turns : List Turn) (assignments : List Candidate)
    (rule : AdjacencyRule)
    (h : ∀ c ∈ assignments, c.stand_id ≠ rule.stand_a ∧ c.stand_id ≠ rule.stand_b) :
    ruleShadows turns assignments rule = Except.ok [] ∧
    ∀ rules, apply_adjacency_rules turns assignments (rule :: rules) =
      apply_adjacency_rules turns assignments rules :=
  ⟨ruleShadows_nil_of_no_match h,
   fun _ => apply_adjacency_rules_cons_nil (ruleShadows_nil_of_no_match h)⟩

/-- Witness for C8: the test data with a rule on stands `9X`/`9Y`, which
no candidate occupies. -/
theorem C8_inactive_rule_adds_nothing_witness :
    ruleShadows turns (buildCandidates turns stands feasibility) c8rule = Except.ok [] :=
  (C8_inactive_rule_adds_nothing turns (buildCandidates turns stands feasibility) c8rule
    (by decide)).1

/-- Claim C9 counterexample: a rule referencing the unknown stand
identifiers `ZZ` and `QQ` is not detected: model construction completes
normally (`Except.ok`, no configuration error, no abort) and simply adds
no constraint. -/
theorem C9_counterexample :
    apply_adjacency_rules turns (buildCandidates turns stands feasibility) [c9rule] =
      Except.ok [] := by
  decide

/-- Claim C9 as amended: a rule whose stand identifiers do not occur in
the stand list is never flagged — it matches no candidate, contributes no
shadow and no constraint, and `apply_adjacency_rules` behaves exactly as
if the rule were absent; construction never aborts on it. -/
theorem C9_unknown_stand_rule_silently_inactive (turns : List Turn) (stands : List Stand)
    (feas : Nat → Nat → Bool) (rule : AdjacencyRule)
    (ha : rule.stand_a ∉ stands.map Stand.stand_id)
    (hb : rule.stand_b ∉ stands.map Stand.stand_id) :
    ruleShadows turns (buildCandidates turns stands feas) rule = Except.ok [] ∧
    ∀ rules, apply_adjacency_rules turns (buildCandidates turns stands feas) (rule :: rules) =
      apply_adjacency_rules turns (buildCandidates turns stands feas) rules := by
  have h : ∀ c ∈ buildCandidates turns stands feas,
      c.stand_id ≠ rule.stand_a ∧ c.stand_id ≠ rule.stand_b := by
    intro c hc
    have hm := buildCandidates_stand_mem hc
    exact ⟨fun he => ha (he ▸ hm), fun he => hb (he ▸ hm)⟩
  exact ⟨ruleShadows_nil_of_no_match h,
    fun _ => apply_adjacency_rules_cons_nil (ruleShadows_nil_of_no_match h)⟩

/-- Witness for C9 at the test data and the unknown-stand rule. -/
theorem C9_unknown_stand_rule_silently_inactive_witness :
    ruleShadows turns (buildCandidates turns stands feasibility) c9rule = Except.ok [] :=
  (C9_unknown_stand_rule_silently_inactive turns stands feasibility c9rule
    (by decide) (by decide)).1

/-- For a rule whose two sides name the same stand, the `elif` makes the
side-b branch unreachable: the collected shadows are those of the side-a
branch alone. -/
theorem ruleShadows_same_stand (turns : List Turn) (assignments : List Candidate)
    (rule : AdjacencyRule) (h : rule.stand_a = rule.stand_b) :
    ruleShadows turns assignments rule = sideAOnlyShadows turns assignments rule := by
  induction assignments with
  | nil => rfl
  | cons c rest ih =>
    by_cases hA : c.stand_id = rule.stand_a
    · simp only [ruleShadows, sideAOnlyShadows, if_pos hA]
      rcases hl : lookupTurnTimes turns c.turn_id with w | ad
      · simp only [except_bind_err]
      · simp only [except_bind_ok, ih]
    · have hB : ¬ c.stand_id = rule.stand_b := by rw [← h]; exact hA
      simp only [ruleShadows, sideAOnlyShadows, if_neg hA, if_neg hB, ih]

/-- The side-a-only accumulation never reads `time_constraint_b`. -/
theorem sideAOnlyShadows_tcb_invariant (turns : List Turn) (assignments : List Candidate)
    (rule : AdjacencyRule) (tb : TimeWindowDefinition) :
    sideAOnlyShadows turns assignments { rule with time_constraint_b := tb } =
      sideAOnlyShadows turns assignments rule := by
  induction assignments with
  | nil => rfl
  | cons c rest ih =>
    by_cases hA : c.stand_id = rule.stand_a
    · simp only [sideAOnlyShadows, if_pos hA]
      rcases hl : lookupTurnTimes turns c.turn_id with w | ad
      · simp only [except_bind_err]
      · simp only [except_bind_ok, ih]
    · simp only [sideAOnlyShadows, if_neg hA, ih]

/-- Claim C10: for a rule with `stand_a = stand_b`, each candidate on
that stand contributes exactly one shadow interval, derived from
`time_constraint_a` (the side-a-only accumulation), and the result is
invariant under any change of `time_constraint_b` — side b is never
used. -/
theorem C10_same_stand_rule_uses_side_a_only (turns : List Turn)
    (assignments : List Candidate) (rule : AdjacencyRule)
    (h : rule.stand_a = rule.stand_b) :
    ruleShadows turns assignments rule = sideAOnlyShadows turns assignments rule ∧
    ∀ tb, ruleShadows turns assignments { rule with time_constraint_b := tb } =
      ruleShadows turns assignments rule := by
  refine ⟨ruleShadows_same_stand turns assignments rule h, ?_⟩
  intro tb
  have h2 : ({ rule with time_constraint_b := tb } : AdjacencyRule).stand_a =
      ({ rule with time_constraint_b := tb } : AdjacencyRule).stand_b := h
  rw [ruleShadows_same_stand turns assignments _ h2,
    sideAOnlyShadows_tcb_invariant turns assignments rule tb,
    ruleShadows_same_stand turns assignments rule h]

/-- Witness for C10: the test data with a rule naming stand `2L` on both
sides and different windows on the two sides. -/
theorem C10_same_stand_rule_uses_side_a_only_witness :
    ruleShadows turns (buildCandidates turns stands feasibility) c10rule =
      sideAOnlyShadows turns (buildCandidates turns stands feasibility) c10rule :=
  (C10_same_stand_rule_uses_side_a_only turns (buildCandidates turns stands feasibility)
    c10rule rfl).1

/-- Witness for C7 at the source's test data and its first adjacency rule
(identity windows on both sides). -/
theorem C7_identity_rule_equals_raw_occupancy_witness :
    ruleShadows turns (buildCandidates turns stands feasibility)
        { rule_id := "1", name := "1L_1C_adjacency", stand_a := "1L", stand_b := "1C",
          time_constraint_a := identityWindow, time_constraint_b := identityWindow } =
      Except.ok (((buildCandidates turns stands feasibility).filter
          (fun c => c.stand_id == "1L" || c.stand_id == "1C")).map
        (fun c => { start := c.start, size := c.stop - c.start, stop := c.stop,
                    is_present := presKey c })) :=
  (C7_identity_rule_equals_raw_occupancy turns (buildCandidates turns stands feasibility)
    { rule_id := "1", name := "1L_1C_adjacency", stand_a := "1L", stand_b := "1C",
      time_constraint_a := identityWindow, time_constraint_b := identityWindow }
    (fun _ => true) rfl rfl (by decide) (by decide)).1
